import Mathlib

/-!
Verification of the Thornbury Picture House showtimes monitor.

The repository contains several iterations of the same monitor script.  The
most complete variant (the one whose design the specification describes) is
the GraphQL rolling-window script: it primes cookies, fetches one day at a
time for today plus 30 days, normalizes records into a title -> ISO-instant
map, filters out past showtimes on both sides before diffing, and sends a
webhook notification.  Two earlier variants differ in ways that matter here:
the `monitor.js` GraphQL variant stores locale-formatted display strings,
sorts them with the default lexicographic `sort()`, and on a fetch error
continues with an empty schedule instead of aborting; the oldest GraphQL
variant's `sendNotification` logs and returns when the webhook URL is missing
instead of throwing.

Timestamps: JavaScript `new Date(s).getTime()` is modelled by an arbitrary
parse function `p : String -> Option Int`, where `none` models `NaN`
(an unparseable string) and `some t` the finite epoch-milliseconds value.
All theorems are proved for every such parse function, hence in particular
for the real one.
-/

namespace Thornbury

/-- Model of `new Date(s).getTime()`: `none` is `NaN`, `some t` a finite
epoch-milliseconds value. -/
abbrev ParseFn := String → Option Int

/-- JavaScript `String.prototype.trim`: strip leading and trailing
whitespace. -/
def jsTrim (s : String) : String :=
  ⟨((s.data.dropWhile Char.isWhitespace).reverse.dropWhile
      Char.isWhitespace).reverse⟩

/-- Helper for `jsSplit`: cut the character list at every separator;
`acc` holds the current piece reversed. -/
def jsSplitAux (sep : Char) : List Char → List Char → List (List Char)
  | [], acc => [acc.reverse]
  | c :: rest, acc =>
    if c = sep then acc.reverse :: jsSplitAux sep rest []
    else jsSplitAux sep rest (c :: acc)

/-- JavaScript `String.prototype.split` with a one-character separator (the
scripts only split on `";"` and `"="`).  `"".split(sep)` is `[""]`. -/
def jsSplit (sep : Char) (s : String) : List String :=
  (jsSplitAux sep s.data []).map (fun cs => ⟨cs⟩)

/-- JavaScript `Array.prototype.join`. -/
def jsJoin (sep : String) : List String → String
  | [] => ""
  | [x] => x
  | x :: y :: rest => x ++ sep ++ jsJoin sep (y :: rest)

/-- JavaScript string comparison (used by the default `sort()`):
lexicographic on code units. -/
def jsStrLeb : List Char → List Char → Bool
  | [], _ => true
  | _ :: _, [] => false
  | a :: as, b :: bs =>
    if a.val < b.val then true
    else if a.val = b.val then jsStrLeb as bs
    else false

/-- The default-`sort()` ordering on strings. -/
def jsStrLe (a b : String) : Prop := jsStrLeb a.data b.data = true

instance : DecidableRel jsStrLe := fun a b =>
  inferInstanceAs (Decidable (jsStrLeb a.data b.data = true))

/-- A schedule: a JavaScript object mapping movie title to a list of showtime
strings, modelled as an association list in key-insertion order.  JavaScript
object keys are unique; that invariant is the `nodupKeys` hypothesis below. -/
abbrev Schedule := List (String × List String)

/-- The keys of a JavaScript object are pairwise distinct. -/
abbrev nodupKeys (s : Schedule) : Prop := (s.map Prod.fst).Nodup

/-- `isPastShowtime` from the rolling-window variant: parse the string; a
non-finite parse (`NaN`) is not past; otherwise past iff the value is
strictly below `now` (`Date.now()` is passed in as `now`). -/
def isPastShowtime (p : ParseFn) (now : Int) (s : String) : Bool :=
  match p s with
  | none => false
  | some t => decide (t < now)

/-- `filterPastShowtimes`: per title keep only the non-past showtimes, and
drop any title whose remaining list is empty. -/
def filterPastShowtimes (p : ParseFn) (now : Int) (m : Schedule) : Schedule :=
  m.filterMap (fun kv =>
    let futureTimes := kv.2.filter (fun t => !isPastShowtime p now t)
    if futureTimes.isEmpty then none else some (kv.1, futureTimes))

/-- Result object of `detectChanges`.  JavaScript returns an object whose
fields differ between the initial and the regular case; absent fields are
modelled as `none`. -/
structure ChangeResult where
  changed : Bool
  isInitial : Bool
  message : Option String
  added : Option Schedule
  removed : Option Schedule
deriving DecidableEq

/-- The `Initial check: ...` message built in the no-previous-snapshot
branch of `detectChanges`. -/
def initialMessage (movieCount showtimeCount : Nat) : String :=
  s!"Initial check: {movieCount} movies with {showtimeCount} showtimes found"

/-- `Object.values(m).reduce((sum, arr) => sum + arr.length, 0)`. -/
def totalShowtimes (m : Schedule) : Nat := (m.map (fun kv => kv.2.length)).sum

/-- The `added` map of `detectChanges`: for each title of the (filtered) new
data, if the title is absent from the (filtered) old data take all its times,
otherwise take the times not contained in the old entry, kept only when
non-empty. -/
def computeAdded (fOld fNew : Schedule) : Schedule :=
  fNew.filterMap (fun kv =>
    match fOld.lookup kv.1 with
    | none => some kv
    | some oldTimes =>
      let newTimes := kv.2.filter (fun t => !oldTimes.contains t)
      if newTimes.isEmpty then none else some (kv.1, newTimes))

/-- The `removed` map of `detectChanges`, symmetric to `computeAdded`. -/
def computeRemoved (fOld fNew : Schedule) : Schedule :=
  fOld.filterMap (fun kv =>
    match fNew.lookup kv.1 with
    | none => some kv
    | some newTimes =>
      let gone := kv.2.filter (fun t => !newTimes.contains t)
      if gone.isEmpty then none else some (kv.1, gone))

/-- `detectChanges` of the rolling-window variant: `null` previous data gives
the initial summary; otherwise both sides are filtered through
`filterPastShowtimes` before the added/removed comparison. -/
def detectChanges (p : ParseFn) (now : Int) (oldData : Option Schedule)
    (newData : Schedule) : ChangeResult :=
  match oldData with
  | none =>
    { changed := true, isInitial := true,
      message := some (initialMessage newData.length (totalShowtimes newData)),
      added := none, removed := none }
  | some oldD =>
    let fOld := filterPastShowtimes p now oldD
    let fNew := filterPastShowtimes p now newData
    let added := computeAdded fOld fNew
    let removed := computeRemoved fOld fNew
    { changed := !added.isEmpty || !removed.isEmpty, isInitial := false,
      message := none, added := some added, removed := some removed }

/-- `detectChanges` of the `monitor.js` and oldest GraphQL variants: same
comparison but with no future-only filtering of either side. -/
def detectChangesNoFilter (oldData : Option Schedule) (newData : Schedule) :
    ChangeResult :=
  match oldData with
  | none =>
    { changed := true, isInitial := true,
      message := some (initialMessage newData.length (totalShowtimes newData)),
      added := none, removed := none }
  | some oldD =>
    let added := computeAdded oldD newData
    let removed := computeRemoved oldD newData
    { changed := !added.isEmpty || !removed.isEmpty, isInitial := false,
      message := none, added := some added, removed := some removed }

/-- Times recorded for title `t` in an optional added/removed map: `[]` when
the map or the entry is absent. -/
def diffTimes (res : Option Schedule) (t : String) : List String :=
  match res with
  | none => []
  | some m => (m.lookup t).getD []

/-! ### Normalizer -/

/-- A raw GraphQL showing record, keeping the fields the scripts read.
`none` models an absent (`undefined`) field. -/
structure ShowingRecord where
  movieName : Option String
  time : Option String
deriving DecidableEq

/-- `const movie = s?.movie?.name?.trim(); const iso = s?.time;
if (!movie || !iso) continue;` — JavaScript truthiness: a missing value or an
empty string is skipped. -/
def validShowing (r : ShowingRecord) : Option (String × String) :=
  match r.movieName, r.time with
  | some name, some iso =>
    let movie := jsTrim name
    if movie = "" ∨ iso = "" then none else some (movie, iso)
  | _, _ => none

/-- Append one showtime under a title, keeping object key-insertion order:
a new key goes to the back, an existing key has the time pushed onto its
list in place. -/
def insertShowing : Schedule → String → String → Schedule
  | [], movie, iso => [(movie, [iso])]
  | kv :: rest, movie, iso =>
    if kv.1 = movie then (kv.1, kv.2 ++ [iso]) :: rest
    else kv :: insertShowing rest movie iso

/-- The grouping loop of the normalizer: fold the records, skipping invalid
ones and appending the rest under their (trimmed) title. -/
def buildShowtimeMap (records : List ShowingRecord) : Schedule :=
  records.foldl (fun m r =>
    match validShowing r with
    | none => m
    | some mviso => insertShowing m mviso.1 mviso.2) []

/-- `Array.from(new Set(xs))`: deduplicate keeping first occurrences.
`seen` accumulates the values already emitted. -/
def setDedupAux (seen : List String) : List String → List String
  | [] => []
  | x :: xs =>
    if seen.contains x then setDedupAux seen xs
    else x :: setDedupAux (x :: seen) xs

/-- `Array.from(new Set(xs))`. -/
def setDedup (l : List String) : List String := setDedupAux [] l

/-- The sort key of the rolling-window comparator
`(a, b) => new Date(a).getTime() - new Date(b).getTime()`.  For an
unparseable string the comparator returns `NaN` and the engine's resulting
order is unspecified; the model fixes the key `0` there.  The theorems about
chronological order only cover inputs whose times all parse, where this
choice is never exercised. -/
def timeKey (p : ParseFn) (s : String) : Int := (p s).getD 0

/-- The comparator relation of the rolling-window sort. -/
def timeLe (p : ParseFn) (a b : String) : Prop := timeKey p a ≤ timeKey p b

instance (p : ParseFn) : DecidableRel (timeLe p) := fun a b =>
  inferInstanceAs (Decidable (timeKey p a ≤ timeKey p b))

/-- Normalization of the rolling-window variant
(`getAllShowtimesRollingMonth`'s final loop): group, then per title
deduplicate and sort by parsed time.  `Array.prototype.sort` with a
consistent comparator produces a stable sorted permutation, modelled by
insertion sort. -/
def getAllShowtimesMap (p : ParseFn) (records : List ShowingRecord) : Schedule :=
  (buildShowtimeMap records).map
    (fun kv => (kv.1, List.insertionSort (timeLe p) (setDedup kv.2)))

/-- Normalization of the `monitor.js` GraphQL variant: each valid record's
instant is first converted to a locale-formatted display string (`fmt`
models the `toLocaleDateString`/`toLocaleTimeString` formatting), grouped by
title, then deduplicated and sorted with the default `sort()`, i.e.
lexicographically on the formatted strings. -/
def normalizeMonitor (fmt : String → String) (records : List ShowingRecord) :
    Schedule :=
  (records.foldl (fun m r =>
    match validShowing r with
    | none => m
    | some mviso => insertShowing m mviso.1 (fmt mviso.2)) []).map
    (fun kv => (kv.1, List.insertionSort jsStrLe (setDedup kv.2)))

/-! ### Window Fetcher -/

/-- The shape of the GraphQL response body the scripts inspect:
`resp.data?.error?.message`, `resp.data?.errors` (absent modelled as `[]`)
and `resp.data?.data?.showingsForDate?.data ?? []`. -/
structure GraphQLPayload where
  errorMessage : Option String
  errors : List String
  showings : List ShowingRecord
deriving DecidableEq

/-- An HTTP response that completed at the transport level (the requests are
issued with `validateStatus: () => true`, so every status code is delivered
as a value rather than an exception). -/
structure HttpResponse where
  status : Nat
  payload : GraphQLPayload
deriving DecidableEq

/-- The distinguishable errors thrown by the fetch stage. -/
inductive FetchError where
  | forbidden (ymd : String)
  | httpStatus (status : Nat) (ymd : String)
  | graphqlErrorMessage (ymd : String) (msg : String)
  | graphqlErrors (ymd : String)
  | bootstrapFailure
deriving DecidableEq

/-- Truthiness of `resp.data?.error?.message`: present and non-empty. -/
def hasErrorMessage (pl : GraphQLPayload) : Bool :=
  match pl.errorMessage with
  | some msg => msg != ""
  | none => false

/-- `fetchShowingsForDate` of the rolling-window variant: classify one day's
response.  `403` throws a distinguished forbidden error; any other non-2xx
status throws; a truthy `error.message` or a non-empty `errors` array in the
payload throws; otherwise the day's records are returned. -/
def fetchShowingsForDate (ymd : String) (resp : HttpResponse) :
    Except FetchError (List ShowingRecord) :=
  if resp.status = 403 then .error (.forbidden ymd)
  else if resp.status < 200 ∨ 300 ≤ resp.status then
    .error (.httpStatus resp.status ymd)
  else if hasErrorMessage resp.payload then
    .error (.graphqlErrorMessage ymd ((resp.payload.errorMessage).getD ""))
  else if !resp.payload.errors.isEmpty then .error (.graphqlErrors ymd)
  else .ok resp.payload.showings

/-- `DAYS_AHEAD = 30`: the window is today plus 30 days, 31 dates total. -/
def DAYS_AHEAD : Nat := 30

/-- The per-day loop of `getAllShowtimesRollingMonth` over a list of day
indices, instrumented with the list of days actually queried.  `ymds i` is
the calendar string for day `i` (`toYMD` of today plus `i` days in the
Melbourne timezone) and `responses i` the response the endpoint would give
for that day.  The loop is sequential: the first failing day's error is
thrown and no later day is queried. -/
def fetchLoopGo (ymds : Nat → String) (responses : Nat → HttpResponse) :
    List Nat → List Nat × Except FetchError (List ShowingRecord)
  | [] => ([], .ok [])
  | i :: rest =>
    match fetchShowingsForDate (ymds i) (responses i) with
    | .error e => ([i], .error e)
    | .ok recs =>
      let r := fetchLoopGo ymds responses rest
      (i :: r.1, r.2.map (fun more => recs ++ more))

/-- The whole 31-day window: days `0` through `DAYS_AHEAD` inclusive.
First component: the day indices actually queried; second: the thrown error
or the concatenation of all days' records. -/
def fetchWindow (ymds : Nat → String) (responses : Nat → HttpResponse) :
    List Nat × Except FetchError (List ShowingRecord) :=
  fetchLoopGo ymds responses (List.range (DAYS_AHEAD + 1))

/-- The records a day contributes when it succeeds (`[]` on error; only used
to state the all-days-succeed concatenation). -/
def dayShowings (ymds : Nat → String) (responses : Nat → HttpResponse)
    (i : Nat) : List ShowingRecord :=
  match fetchShowingsForDate (ymds i) (responses i) with
  | .ok recs => recs
  | .error _ => []

/-- `getAllShowtimesRollingMonth`: prime cookies (a bootstrap transport
failure propagates), run the window, then normalize.  The incremental
grouping in the source is the grouping of the concatenated record list,
which is how it is modelled. -/
def getAllShowtimesRollingMonth (bootstrap : Except FetchError String)
    (ymds : Nat → String) (responses : Nat → HttpResponse) (p : ParseFn) :
    Except FetchError Schedule :=
  match bootstrap with
  | .error e => .error e
  | .ok _cookies => (fetchWindow ymds responses).2.map
      (fun recs => getAllShowtimesMap p recs)

/-! ### Notifier -/

inductive NotifyError where
  | missingWebhookUrl
  | transportFailure
deriving DecidableEq

/-- `sendNotification` of the rolling-window and `monitor.js` variants:
a missing `IFTTT_WEBHOOK_URL` throws before any POST is attempted; a
transport failure of the POST also throws. -/
def sendNotification (webhookUrl : Option String) (transportOk : Bool) :
    Except NotifyError Unit :=
  match webhookUrl with
  | none => .error .missingWebhookUrl
  | some _ => if transportOk then .ok () else .error .transportFailure

/-- `sendNotification` of the oldest GraphQL variant: a missing URL is
logged and the function returns normally without sending; a transport error
is caught and swallowed.  It never throws; the Bool records whether the POST
was made and succeeded. -/
def sendNotificationV1 (webhookUrl : Option String) (transportOk : Bool) :
    Except NotifyError Bool :=
  match webhookUrl with
  | none => .ok false
  | some _ => .ok transportOk

/-! ### Top-level runs -/

/-- Externally visible outcome of one run: the process exit code, the value
written to `cache.json` (`none` when the store was left untouched) and
whether a webhook notification went out. -/
structure RunOutcome where
  exitCode : Nat
  savedCache : Option Schedule
  notificationSent : Bool
deriving DecidableEq

/-- `main` of the rolling-window variant: a fetch error is caught and the
process exits `1` before the cache is written or any notification attempted;
on success, changes are detected, a notification is sent when `changed`
(an exception there reaches `main().catch`, exits `1` and skips the cache
write), and finally the cache is written. -/
def mainRollingMonth (oldCache : Option Schedule)
    (fetchResult : Except FetchError Schedule) (p : ParseFn) (now : Int)
    (webhookUrl : Option String) (transportOk : Bool) : RunOutcome :=
  match fetchResult with
  | .error _ => ⟨1, none, false⟩
  | .ok newData =>
    let changes := detectChanges p now oldCache newData
    if changes.changed then
      match sendNotification webhookUrl transportOk with
      | .error _ => ⟨1, none, false⟩
      | .ok _ => ⟨0, some newData, true⟩
    else ⟨0, some newData, false⟩

/-- `main` of the `monitor.js` variant: a fetch error is caught and the run
continues with `newData = {}`; the diff (without future filtering) runs
against the loaded cache, a notification is sent when `changed`, and the
cache is overwritten with `newData`. -/
def mainMonitor (oldCache : Option Schedule)
    (fetchResult : Except FetchError Schedule)
    (webhookUrl : Option String) (transportOk : Bool) : RunOutcome :=
  let newData := match fetchResult with
    | .error _ => ([] : Schedule)
    | .ok d => d
  let changes := detectChangesNoFilter oldCache newData
  if changes.changed then
    match sendNotification webhookUrl transportOk with
    | .error _ => ⟨1, none, false⟩
    | .ok _ => ⟨0, some newData, true⟩
  else ⟨0, some newData, false⟩

/-! ### Session Primer -/

/-- Parse one `k=v`-style piece: trim, split on `=`, key before the first
`=`, value the remaining parts rejoined with `=`.  `none` when the key is
empty (the `if (!k)` skip). -/
def parseCookiePair (piece : String) : Option (String × String) :=
  match jsSplit '=' (jsTrim piece) with
  | [] => none
  | k :: rest => if k = "" then none else some (k, jsJoin "=" rest)

/-- `Map.set` semantics: overwrite in place, keeping the original insertion
position for an existing key, appending a new key at the back. -/
def mapSet : List (String × String) → String → String → List (String × String)
  | [], k, v => [(k, v)]
  | kv :: rest, k, v =>
    if kv.1 = k then (k, v) :: rest else kv :: mapSet rest k v

/-- Parse an existing `k1=v1; k2=v2` cookie header into the key map.
A falsy (empty) header contributes nothing. -/
def parseCookieHeader (hdr : String) : List (String × String) :=
  if hdr = "" then []
  else (jsSplit ';' hdr).foldl (fun m piece =>
    match parseCookiePair piece with
    | none => m
    | some kv => mapSet m kv.1 kv.2) []

/-- `c.split(";")[0]`: the cookie pair before the attributes. -/
def firstPiece (c : String) : String := (jsSplit ';' c).headD ""

/-- The `for (const c of setCookieArray)` loop: fold the `set-cookie`
entries into the key map, later entries overwriting earlier values for the
same key. -/
def applySetCookies : List (String × String) → List String →
    List (String × String)
  | m, [] => m
  | m, c :: rest =>
    applySetCookies
      (match parseCookiePair (firstPiece c) with
       | none => m
       | some kv => mapSet m kv.1 kv.2) rest

/-- Render the map back to a `k1=v1; k2=v2` cookie header. -/
def renderCookieHeader (m : List (String × String)) : String :=
  jsJoin "; " (m.map (fun kv => kv.1 ++ "=" ++ kv.2))

/-- `mergeSetCookies`: parse the existing header, apply the `set-cookie`
array (an absent header is the empty list), render. -/
def mergeSetCookies (existingCookieHeader : String)
    (setCookieArray : List String) : String :=
  renderCookieHeader
    (applySetCookies (parseCookieHeader existingCookieHeader) setCookieArray)

/-- A bootstrap response that completed at the transport level: its status
code and its `set-cookie` header array (absent modelled as `[]`). -/
structure BootResponse where
  status : Nat
  setCookie : List String
deriving DecidableEq

/-- `primeCookies`: two bootstrap GETs (home page, now-showing page), both
issued with `validateStatus: () => true` so no status code raises; the
`set-cookie` headers of both responses are merged in order.  The status
fields are never consulted. -/
def primeCookies (homeResp nowResp : BootResponse) : String :=
  let cookies := mergeSetCookies "" homeResp.setCookie
  mergeSetCookies cookies nowResp.setCookie

/-- The value the last `set-cookie` entry with key `k` contributes, if any:
later entries take precedence. -/
def lastValueForKey : List String → String → Option String
  | [], _ => none
  | c :: rest, k =>
    match lastValueForKey rest k with
    | some v => some v
    | none =>
      match parseCookiePair (firstPiece c) with
      | some kv => if kv.1 = k then some kv.2 else none
      | none => none

/-- Whether a day's response classifies as a success. -/
def dayOk (ymds : Nat → String) (responses : Nat → HttpResponse) (i : Nat) :
    Bool :=
  match fetchShowingsForDate (ymds i) (responses i) with
  | .ok _ => true
  | .error _ => false

/-! ### Concrete evaluation data

A concrete parse function and concrete inputs, used by the evaluation
theorems below.  `pEval` parses every string to its length except the one
designated unparseable string, standing in for `new Date().getTime()` on a
small closed universe of inputs. -/

/-- A concrete parse function: `"garbage"` is unparseable (`NaN`), any other
string parses to its length. -/
def pEval : ParseFn := fun s =>
  if s = "garbage" then none else some (s.length : Int)

/-- ISO instant in December 2025 (epoch milliseconds `1766513400000`). -/
def isoDec : String := "2025-12-23T18:10:00Z"

/-- ISO instant in April 2026 (epoch milliseconds `1775656800000`): later
than `isoDec`. -/
def isoApr : String := "2026-04-05T14:00:00Z"

/-- The `en-US`-style locale formatting of `isoDec`, the display shape the
formatted-string variants store (the specification's own example shape,
`December 23 6:10 pm`). -/
def fmtDec : String := "December 23 6:10 pm"

/-- The locale formatting of `isoApr` in the same shape. -/
def fmtApr : String := "April 5 2:00 pm"

/-- Locale formatter on the two example instants, modelling
`toLocaleDateString`/`toLocaleTimeString` there. -/
def fmtEx : String → String := fun s =>
  if s = isoDec then fmtDec else if s = isoApr then fmtApr else s

/-- Parse function on the two example instants, with their chronological
epoch-millisecond values. -/
def pIso : ParseFn := fun s =>
  if s = isoDec then some 1766513400000
  else if s = isoApr then some 1775656800000 else none

/-- The time value of the instant each formatted display string stands for:
`fmtDec` is the December 2025 instant, `fmtApr` the April 2026 one. -/
def tvFmt : String → Int := fun s =>
  if s = fmtDec then 1766513400000
  else if s = fmtApr then 1775656800000 else 0

/-- Two showings of one movie, the December 2025 one first. -/
def recsMonitor : List ShowingRecord :=
  [⟨some "Movie A", some isoDec⟩, ⟨some "Movie A", some isoApr⟩]

/-- Records for evaluating the rolling-window normalizer: one title (with
whitespace to trim), a duplicated time, times of different lengths. -/
def recsNorm : List ShowingRecord :=
  [⟨some " Movie A ", some "abc"⟩, ⟨some "Movie A", some "a"⟩,
   ⟨some "Movie A", some "abc"⟩]

/-- A cached schedule for the fetch-failure run evaluation. -/
def oldCacheEx : Schedule := [("Movie A", ["2026-02-01T10:00:00Z"])]

/-- A successful GraphQL response carrying one showing. -/
def respOk : HttpResponse :=
  ⟨200, ⟨none, [], [⟨some "Movie A", some "2026-01-05T10:00:00Z"⟩]⟩⟩

/-- A forbidden (HTTP 403) response. -/
def respForbidden : HttpResponse := ⟨403, ⟨none, [], []⟩⟩

/-- Calendar strings for the evaluation window. -/
def ymdsEx : Nat → String := fun i => toString i

/-- Every day of the window succeeds. -/
def responsesAllOk : Nat → HttpResponse := fun _ => respOk

/-- Day 2 of the window is forbidden, the others succeed. -/
def responsesErrAt2 : Nat → HttpResponse := fun i =>
  if i = 2 then respForbidden else respOk

/-- Every day of the window is forbidden (so day 0 aborts the fetch). -/
def responsesForbidden : Nat → HttpResponse := fun _ => respForbidden

instance (p : ParseFn) : IsTotal String (timeLe p) :=
  ⟨fun a b => Int.le_total (timeKey p a) (timeKey p b)⟩

instance (p : ParseFn) : IsTrans String (timeLe p) :=
  ⟨fun _ _ _ hab hbc => le_trans hab hbc⟩

/-! ## Association-list lemmas

JavaScript object access `m[k]` corresponds to `List.lookup` on the
association list; these connect lookup with entry membership. -/

theorem lookup_mem {α β : Type} [BEq α] [LawfulBEq α] {k : α} {v : β} :
    ∀ {m : List (α × β)}, m.lookup k = some v → (k, v) ∈ m := by
  intro m
  induction m with
  | nil => simp
  | cons kv rest ih =>
    obtain ⟨a, b⟩ := kv
    intro h
    rw [List.lookup_cons] at h
    split at h
    · next heq =>
      injection h with h
      subst h
      have ha : k = a := eq_of_beq heq
      subst ha
      exact List.mem_cons_self _ _
    · exact List.mem_cons_of_mem _ (ih h)

theorem lookup_isSome_of_mem {α β : Type} [BEq α] [LawfulBEq α] {k : α} {v : β} :
    ∀ {m : List (α × β)}, (k, v) ∈ m → ∃ w, m.lookup k = some w := by
  intro m
  induction m with
  | nil => simp
  | cons kv rest ih =>
    obtain ⟨a, b⟩ := kv
    intro h
    rw [List.lookup_cons]
    rcases List.mem_cons.mp h with heq | hmem
    · rw [Prod.mk.injEq] at heq
      obtain ⟨rfl, rfl⟩ := heq
      exact ⟨v, by simp⟩
    · obtain ⟨w, hw⟩ := ih hmem
      by_cases hk : (k == a) = true
      · exact ⟨b, by simp [hk]⟩
      · simp only [Bool.not_eq_true] at hk
        exact ⟨w, by simp [hk, hw]⟩

theorem lookup_eq_of_mem_nodup {α β : Type} [BEq α] [LawfulBEq α] {k : α}
    {v : β} :
    ∀ {m : List (α × β)}, (m.map Prod.fst).Nodup → (k, v) ∈ m →
      m.lookup k = some v := by
  intro m
  induction m with
  | nil => simp
  | cons kv rest ih =>
    obtain ⟨a, b⟩ := kv
    intro hn h
    rw [List.map_cons, List.nodup_cons] at hn
    rw [List.lookup_cons]
    rcases List.mem_cons.mp h with heq | hmem
    · rw [Prod.mk.injEq] at heq
      obtain ⟨rfl, rfl⟩ := heq
      simp
    · have hkmem : k ∈ rest.map Prod.fst := by
        simpa using List.mem_map_of_mem Prod.fst hmem
      have hka : (k == a) = false := by
        rw [← Bool.not_eq_true]
        intro hk
        exact hn.1 (eq_of_beq hk ▸ hkmem)
      simp [hka, ih hn.2 hmem]

/-! ## Diff Engine lemmas -/

theorem mem_filterPast {p : ParseFn} {now : Int} {m : Schedule} {t : String}
    {ts : List String} :
    (t, ts) ∈ filterPastShowtimes p now m ↔
      ∃ ts0, (t, ts0) ∈ m ∧
        ts = ts0.filter (fun s => !isPastShowtime p now s) ∧ ts ≠ [] := by
  simp only [filterPastShowtimes, List.mem_filterMap]
  constructor
  · rintro ⟨⟨a, b⟩, hmem, hab⟩
    dsimp only at hab
    split at hab
    · exact absurd hab (by simp)
    · next hne =>
      injection hab with h1
      injection h1 with hat hbt
      subst hat
      subst hbt
      refine ⟨b, hmem, rfl, ?_⟩
      intro hnil
      rw [hnil] at hne
      simp at hne
  · rintro ⟨ts0, hmem, rfl, hne⟩
    refine ⟨(t, ts0), hmem, ?_⟩
    dsimp only
    rw [if_neg]
    simpa using hne

theorem mem_filterPast_not_past {p : ParseFn} {now : Int} {m : Schedule}
    {t : String} {ts : List String}
    (h : (t, ts) ∈ filterPastShowtimes p now m) {s : String} (hs : s ∈ ts) :
    isPastShowtime p now s = false := by
  obtain ⟨ts0, _, rfl, _⟩ := mem_filterPast.mp h
  have hf := (List.mem_filter.mp hs).2
  simpa using hf

theorem mem_filterPast_subset {p : ParseFn} {now : Int} {m : Schedule}
    {t : String} {ts : List String}
    (h : (t, ts) ∈ filterPastShowtimes p now m) {s : String} (hs : s ∈ ts) :
    ∃ ts0, (t, ts0) ∈ m ∧ s ∈ ts0 := by
  obtain ⟨ts0, hmem, rfl, _⟩ := mem_filterPast.mp h
  exact ⟨ts0, hmem, (List.mem_filter.mp hs).1⟩

theorem keys_filterMap_sublist
    (f : (String × List String) → Option (String × List String))
    (hf : ∀ kv kv2, f kv = some kv2 → kv2.1 = kv.1) :
    ∀ m : Schedule,
      List.Sublist ((m.filterMap f).map Prod.fst) (m.map Prod.fst) := by
  intro m
  induction m with
  | nil => simp
  | cons kv rest ih =>
    rw [List.filterMap_cons]
    cases hc : f kv with
    | none =>
      rw [List.map_cons]
      exact ih.trans (List.sublist_cons_self _ _)
    | some kv2 =>
      rw [List.map_cons, List.map_cons, hf kv kv2 hc]
      exact List.Sublist.cons₂ _ ih

theorem keys_filterPast_sublist (p : ParseFn) (now : Int) (m : Schedule) :
    List.Sublist ((filterPastShowtimes p now m).map Prod.fst)
      (m.map Prod.fst) := by
  refine keys_filterMap_sublist _ ?_ m
  intro kv kv2 h
  dsimp only at h
  split at h
  · cases h
  · injection h with h1
    rw [← h1]

theorem nodupKeys_filterPast {p : ParseFn} {now : Int} {m : Schedule}
    (h : nodupKeys m) : nodupKeys (filterPastShowtimes p now m) :=
  h.sublist (keys_filterPast_sublist p now m)

theorem not_contains_of_filter {oldTimes b : List String} {s : String}
    (hs : s ∈ b.filter (fun x => !oldTimes.contains x)) : s ∉ oldTimes := by
  have hf := (List.mem_filter.mp hs).2
  simpa using hf

theorem mem_computeAdded {fOld fNew : Schedule} {t : String}
    {ts : List String} (h : (t, ts) ∈ computeAdded fOld fNew) {s : String}
    (hs : s ∈ ts) :
    (∃ tsN, (t, tsN) ∈ fNew ∧ s ∈ tsN) ∧
      ∀ tsO, fOld.lookup t = some tsO → s ∉ tsO := by
  simp only [computeAdded, List.mem_filterMap] at h
  obtain ⟨⟨a, b⟩, hmem, hab⟩ := h
  dsimp only at hab
  split at hab
  · next hlk =>
    injection hab with h1
    injection h1 with hat hbt
    subst hat
    subst hbt
    exact ⟨⟨b, hmem, hs⟩, fun tsO htsO => by rw [hlk] at htsO; cases htsO⟩
  · next oldTimes hlk =>
    split at hab
    · exact absurd hab (by simp)
    · injection hab with h1
      injection h1 with hat hbt
      subst hat
      subst hbt
      have hsb := List.mem_filter.mp hs
      refine ⟨⟨b, hmem, hsb.1⟩, fun tsO htsO => ?_⟩
      rw [hlk] at htsO
      injection htsO with htsO
      subst htsO
      exact not_contains_of_filter hs

theorem mem_computeRemoved {fOld fNew : Schedule} {t : String}
    {ts : List String} (h : (t, ts) ∈ computeRemoved fOld fNew) {s : String}
    (hs : s ∈ ts) :
    (∃ tsO, (t, tsO) ∈ fOld ∧ s ∈ tsO) ∧
      ∀ tsN, fNew.lookup t = some tsN → s ∉ tsN := by
  simp only [computeRemoved, List.mem_filterMap] at h
  obtain ⟨⟨a, b⟩, hmem, hab⟩ := h
  dsimp only at hab
  split at hab
  · next hlk =>
    injection hab with h1
    injection h1 with hat hbt
    subst hat
    subst hbt
    exact ⟨⟨b, hmem, hs⟩, fun tsN htsN => by rw [hlk] at htsN; cases htsN⟩
  · next newTimes hlk =>
    split at hab
    · exact absurd hab (by simp)
    · injection hab with h1
      injection h1 with hat hbt
      subst hat
      subst hbt
      have hsb := List.mem_filter.mp hs
      refine ⟨⟨b, hmem, hsb.1⟩, fun tsN htsN => ?_⟩
      rw [hlk] at htsN
      injection htsN with htsN
      subst htsN
      exact not_contains_of_filter hs

/-! ## Claims about the Diff Engine -/

/-- C2: For every previous Schedule, every current Schedule and every
reference instant `now`, every instant strictly before `now` (one whose
parsed time value lies strictly below `now`) is absent from every title's
list in both the `added` and the `removed` mapping of the diff, even when
that instant is present in one schedule and not the other. -/
theorem past_instants_absent_from_diff (p : ParseFn) (now : Int)
    (oldD newD : Schedule) (t s : String) (v : Int) (hv : p s = some v)
    (hlt : v < now) :
    s ∉ diffTimes (detectChanges p now (some oldD) newD).added t ∧
      s ∉ diffTimes (detectChanges p now (some oldD) newD).removed t := by
  have hpast : isPastShowtime p now s = true := by
    simp [isPastShowtime, hv, hlt]
  have hadd : (detectChanges p now (some oldD) newD).added
      = some (computeAdded (filterPastShowtimes p now oldD)
          (filterPastShowtimes p now newD)) := rfl
  have hrem : (detectChanges p now (some oldD) newD).removed
      = some (computeRemoved (filterPastShowtimes p now oldD)
          (filterPastShowtimes p now newD)) := rfl
  constructor
  · intro hmem
    rw [hadd, diffTimes] at hmem
    cases hlk : (computeAdded (filterPastShowtimes p now oldD)
        (filterPastShowtimes p now newD)).lookup t with
    | none => rw [hlk] at hmem; simp at hmem
    | some ts =>
      rw [hlk] at hmem
      simp only [Option.getD_some] at hmem
      obtain ⟨⟨tsN, htsN, hsN⟩, _⟩ := mem_computeAdded (lookup_mem hlk) hmem
      have hnp := mem_filterPast_not_past htsN hsN
      rw [hpast] at hnp
      cases hnp
  · intro hmem
    rw [hrem, diffTimes] at hmem
    cases hlk : (computeRemoved (filterPastShowtimes p now oldD)
        (filterPastShowtimes p now newD)).lookup t with
    | none => rw [hlk] at hmem; simp at hmem
    | some ts =>
      rw [hlk] at hmem
      simp only [Option.getD_some] at hmem
      obtain ⟨⟨tsO, htsO, hsO⟩, _⟩ := mem_computeRemoved (lookup_mem hlk) hmem
      have hnp := mem_filterPast_not_past htsO hsO
      rw [hpast] at hnp
      cases hnp

/-- C2 witness: with `now = 5` under `pEval`, the past instant `"ab"`
(value 2) differs between the two schedules yet appears in neither `added`
nor `removed`. -/
theorem past_instants_absent_from_diff_witness :
    pEval "ab" = some 2 ∧ (2 : Int) < 5 ∧
      ("ab" ∉ diffTimes (detectChanges pEval 5
          (some [("A", ["ab", "abcdefg"])])
          [("A", ["abcdefg", "abcdefgh"])]).added "A" ∧
        "ab" ∉ diffTimes (detectChanges pEval 5
          (some [("A", ["ab", "abcdefg"])])
          [("A", ["abcdefg", "abcdefgh"])]).removed "A") :=
  ⟨by decide, by decide,
    past_instants_absent_from_diff pEval 5 [("A", ["ab", "abcdefg"])]
      [("A", ["abcdefg", "abcdefgh"])] "A" "ab" 2 (by decide) (by decide)⟩

/-- C3: Diffing a Schedule against itself (after the identical future-only
filtering of both sides) yields `changed = false`, with empty `added` and
`removed`. -/
theorem diff_self_unchanged (p : ParseFn) (now : Int) (S : Schedule)
    (h : nodupKeys S) :
    (detectChanges p now (some S) S).changed = false ∧
      (detectChanges p now (some S) S).added = some [] ∧
      (detectChanges p now (some S) S).removed = some [] := by
  have hF : nodupKeys (filterPastShowtimes p now S) := nodupKeys_filterPast h
  have hself : ∀ (b : List String), b.filter (fun t => !b.contains t) = [] := by
    intro b
    rw [List.filter_eq_nil_iff]
    intro x hx
    simp [hx]
  have hAdd : computeAdded (filterPastShowtimes p now S)
      (filterPastShowtimes p now S) = [] := by
    rw [computeAdded, List.filterMap_eq_nil_iff]
    intro kv hkv
    obtain ⟨a, b⟩ := kv
    dsimp only
    rw [lookup_eq_of_mem_nodup hF hkv]
    simp [hself b]
  have hRem : computeRemoved (filterPastShowtimes p now S)
      (filterPastShowtimes p now S) = [] := by
    rw [computeRemoved, List.filterMap_eq_nil_iff]
    intro kv hkv
    obtain ⟨a, b⟩ := kv
    dsimp only
    rw [lookup_eq_of_mem_nodup hF hkv]
    simp [hself b]
  refine ⟨?_, ?_, ?_⟩ <;> simp [detectChanges, hAdd, hRem]

/-- C3 witness: a concrete schedule diffed against itself reports no
change. -/
theorem diff_self_unchanged_witness :
    nodupKeys [("A", ["ab", "abcdefg"])] ∧
      ((detectChanges pEval 5 (some [("A", ["ab", "abcdefg"])])
          [("A", ["ab", "abcdefg"])]).changed = false ∧
        (detectChanges pEval 5 (some [("A", ["ab", "abcdefg"])])
          [("A", ["ab", "abcdefg"])]).added = some [] ∧
        (detectChanges pEval 5 (some [("A", ["ab", "abcdefg"])])
          [("A", ["ab", "abcdefg"])]).removed = some []) :=
  ⟨by decide, diff_self_unchanged pEval 5 [("A", ["ab", "abcdefg"])] (by decide)⟩

/-- C4: With the no-previous-snapshot sentinel, the result is the initial
diff for every current Schedule (the empty one included): `isInitial = true`,
`changed = true`, the message carries exactly the distinct title count and
the total instant count, and no per-title `added`/`removed` breakdown is
produced (both fields are absent). -/
theorem initial_diff_summary_only (p : ParseFn) (now : Int) (newD : Schedule)
    (h : nodupKeys newD) :
    detectChanges p now none newD =
      { changed := true, isInitial := true,
        message := some (initialMessage newD.length (totalShowtimes newD)),
        added := none, removed := none } ∧
      (newD.map Prod.fst).dedup.length = newD.length := by
  refine ⟨rfl, ?_⟩
  rw [List.dedup_eq_self.mpr h]
  simp

/-- C4 witness: a concrete current schedule (two titles, three instants)
with the sentinel previous value yields the initial summary. -/
theorem initial_diff_summary_only_witness :
    nodupKeys [("A", ["abcdef"]), ("B", ["ab", "abc"])] ∧
      (detectChanges pEval 5 none [("A", ["abcdef"]), ("B", ["ab", "abc"])] =
        { changed := true, isInitial := true,
          message := some (initialMessage 2 3),
          added := none, removed := none } ∧
        ([("A", ["abcdef"]), ("B", ["ab", "abc"])].map
            (Prod.fst (α := String) (β := List String))).dedup.length = 2) :=
  ⟨by decide,
    initial_diff_summary_only pEval 5 [("A", ["abcdef"]), ("B", ["ab", "abc"])]
      (by decide)⟩

/-- C9: No instant appears in both the `added` list and the `removed` list
of the same title in one diff: the per-title added and removed lists are
disjoint. -/
theorem added_removed_disjoint (p : ParseFn) (now : Int)
    (oldD newD : Schedule) (t s : String) (hOld : nodupKeys oldD)
    (hNew : nodupKeys newD)
    (hs : s ∈ diffTimes (detectChanges p now (some oldD) newD).added t) :
    s ∉ diffTimes (detectChanges p now (some oldD) newD).removed t := by
  intro hr
  have hadd : (detectChanges p now (some oldD) newD).added
      = some (computeAdded (filterPastShowtimes p now oldD)
          (filterPastShowtimes p now newD)) := rfl
  have hrem : (detectChanges p now (some oldD) newD).removed
      = some (computeRemoved (filterPastShowtimes p now oldD)
          (filterPastShowtimes p now newD)) := rfl
  rw [hadd, diffTimes] at hs
  rw [hrem, diffTimes] at hr
  cases hlkA : (computeAdded (filterPastShowtimes p now oldD)
      (filterPastShowtimes p now newD)).lookup t with
  | none => rw [hlkA] at hs; simp at hs
  | some tsA =>
    rw [hlkA] at hs
    simp only [Option.getD_some] at hs
    cases hlkR : (computeRemoved (filterPastShowtimes p now oldD)
        (filterPastShowtimes p now newD)).lookup t with
    | none => rw [hlkR] at hr; simp at hr
    | some tsR =>
      rw [hlkR] at hr
      simp only [Option.getD_some] at hr
      obtain ⟨⟨tsN, htsN, hsN⟩, _⟩ := mem_computeAdded (lookup_mem hlkA) hs
      obtain ⟨_, hnotNew⟩ := mem_computeRemoved (lookup_mem hlkR) hr
      have hNewF : nodupKeys (filterPastShowtimes p now newD) :=
        nodupKeys_filterPast hNew
      exact hnotNew tsN (lookup_eq_of_mem_nodup hNewF htsN) hsN

/-- C9 witness: a concrete diff where `"abcdefgh"` is added for title `"A"`
and is then absent from the removed list of `"A"`. -/
theorem added_removed_disjoint_witness :
    nodupKeys [("A", ["abcdef"])] ∧
      nodupKeys [("A", ["abcdef", "abcdefgh"])] ∧
      "abcdefgh" ∈ diffTimes (detectChanges pEval 5
        (some [("A", ["abcdef"])]) [("A", ["abcdef", "abcdefgh"])]).added "A" ∧
      "abcdefgh" ∉ diffTimes (detectChanges pEval 5
        (some [("A", ["abcdef"])]) [("A", ["abcdef", "abcdefgh"])]).removed "A" :=
  ⟨by decide, by decide, by decide,
    added_removed_disjoint pEval 5 [("A", ["abcdef"])]
      [("A", ["abcdef", "abcdefgh"])] "A" "abcdefgh" (by decide) (by decide)
      (by decide)⟩

/-- C10: An instant whose string does not parse to a finite time value is
classified not past by `isPastShowtime`, hence retained by the future-only
filter: unparseable instants are never dropped. -/
theorem unparseable_never_dropped (p : ParseFn) (now : Int) (s : String)
    (m : Schedule) (t : String) (ts : List String) (hp : p s = none)
    (hmem : (t, ts) ∈ m) (hs : s ∈ ts) :
    isPastShowtime p now s = false ∧
      ∃ ts2, (t, ts2) ∈ filterPastShowtimes p now m ∧ s ∈ ts2 := by
  have hnp : isPastShowtime p now s = false := by simp [isPastShowtime, hp]
  have hsf : s ∈ ts.filter (fun x => !isPastShowtime p now x) :=
    List.mem_filter.mpr ⟨hs, by simp [hnp]⟩
  refine ⟨hnp, ts.filter (fun x => !isPastShowtime p now x), ?_, hsf⟩
  rw [mem_filterPast]
  refine ⟨ts, hmem, rfl, ?_⟩
  intro hnil
  rw [hnil] at hsf
  cases hsf

/-- C10 witness: `"garbage"` is unparseable under `pEval`, is classified not
past, is retained by the filter, and shows up in the `added` map of a
concrete diff. -/
theorem unparseable_never_dropped_witness :
    pEval "garbage" = none ∧
      ("A", ["garbage", "ab"]) ∈ [("A", ["garbage", "ab"])] ∧
      "garbage" ∈ ["garbage", "ab"] ∧
      (isPastShowtime pEval 5 "garbage" = false ∧
        ∃ ts2, ("A", ts2) ∈ filterPastShowtimes pEval 5
            [("A", ["garbage", "ab"])] ∧ "garbage" ∈ ts2) ∧
      "garbage" ∈ diffTimes (detectChanges pEval 5 (some [("B", ["abcdef"])])
        [("A", ["garbage", "ab"])]).added "A" :=
  ⟨by decide, by decide, by decide,
    unparseable_never_dropped pEval 5 "garbage" [("A", ["garbage", "ab"])]
      "A" ["garbage", "ab"] (by decide) (by decide) (by decide),
    by decide⟩

/-! ## Normalizer lemmas -/

theorem setDedupAux_subset {x : String} :
    ∀ {l seen : List String}, x ∈ setDedupAux seen l → x ∈ l := by
  intro l
  induction l with
  | nil => intro seen h; cases h
  | cons a rest ih =>
    intro seen h
    rw [setDedupAux] at h
    split at h
    · exact List.mem_cons_of_mem _ (ih h)
    · rcases List.mem_cons.mp h with rfl | hh
      · exact List.mem_cons_self _ _
      · exact List.mem_cons_of_mem _ (ih hh)

theorem setDedupAux_nodup :
    ∀ (l seen : List String), (setDedupAux seen l).Nodup ∧
      ∀ x ∈ setDedupAux seen l, x ∉ seen := by
  intro l
  induction l with
  | nil => intro seen; exact ⟨List.nodup_nil, by simp [setDedupAux]⟩
  | cons a rest ih =>
    intro seen
    rw [setDedupAux]
    split
    · exact ih seen
    · next hcont =>
      have hna : a ∉ seen := by simpa using hcont
      obtain ⟨hnd, hns⟩ := ih (a :: seen)
      constructor
      · rw [List.nodup_cons]
        exact ⟨fun hmem => hns a hmem (List.mem_cons_self _ _), hnd⟩
      · intro x hx
        rcases List.mem_cons.mp hx with rfl | hh
        · exact hna
        · exact fun hxseen => hns x hh (List.mem_cons_of_mem _ hxseen)

theorem setDedup_nodup (l : List String) : (setDedup l).Nodup :=
  (setDedupAux_nodup l []).1

theorem setDedup_subset {x : String} {l : List String}
    (h : x ∈ setDedup l) : x ∈ l :=
  setDedupAux_subset h

theorem validShowing_time {r : ShowingRecord} {mv iso : String}
    (h : validShowing r = some (mv, iso)) : r.time = some iso := by
  obtain ⟨mn, tm⟩ := r
  cases mn with
  | none => simp [validShowing] at h
  | some name =>
    cases tm with
    | none => simp [validShowing] at h
    | some iso0 =>
      rw [validShowing] at h
      dsimp only at h
      split at h
      · cases h
      · injection h with h1
        injection h1 with h2 h3
        subst h3
        rfl

theorem insertShowing_values {Q : String → Prop} :
    ∀ (m : Schedule) (movie iso : String),
      (∀ kv ∈ m, ∀ x ∈ kv.2, Q x) → Q iso →
      ∀ kv ∈ insertShowing m movie iso, ∀ x ∈ kv.2, Q x := by
  intro m
  induction m with
  | nil =>
    intro movie iso _ hq kv hkv x hx
    simp only [insertShowing, List.mem_singleton] at hkv
    subst hkv
    simp only [List.mem_singleton] at hx
    subst hx
    exact hq
  | cons kv0 rest ih =>
    intro movie iso hm hq kv hkv x hx
    rw [insertShowing] at hkv
    split at hkv
    · rcases List.mem_cons.mp hkv with rfl | hh
      · rcases List.mem_append.mp hx with h2 | h2
        · exact hm kv0 (List.mem_cons_self _ _) x h2
        · simp only [List.mem_singleton] at h2
          subst h2
          exact hq
      · exact hm kv (List.mem_cons_of_mem _ hh) x hx
    · rcases List.mem_cons.mp hkv with rfl | hh
      · exact hm kv (List.mem_cons_self _ _) x hx
      · exact ih movie iso (fun kv2 h2 => hm kv2 (List.mem_cons_of_mem _ h2))
          hq kv hh x hx

theorem buildShowtimeMap_values {Q : String → Prop} :
    ∀ (records : List ShowingRecord) (acc : Schedule),
      (∀ kv ∈ acc, ∀ x ∈ kv.2, Q x) →
      (∀ r ∈ records, ∀ mv iso, validShowing r = some (mv, iso) → Q iso) →
      ∀ kv ∈ records.foldl (fun m r =>
          match validShowing r with
          | none => m
          | some mviso => insertShowing m mviso.1 mviso.2) acc,
        ∀ x ∈ kv.2, Q x := by
  intro records
  induction records with
  | nil => intro acc hacc _ kv hkv; exact hacc kv hkv
  | cons r rest ih =>
    intro acc hacc hrec
    rw [List.foldl_cons]
    cases hv : validShowing r with
    | none =>
      exact ih acc hacc (fun r2 h2 => hrec r2 (List.mem_cons_of_mem _ h2))
    | some mviso =>
      exact ih _ (insertShowing_values acc mviso.1 mviso.2 hacc
          (hrec r (List.mem_cons_self _ _) mviso.1 mviso.2 (by rw [hv])))
        (fun r2 h2 => hrec r2 (List.mem_cons_of_mem _ h2))

theorem buildShowtimeMap_forall {Q : String → Prop}
    (records : List ShowingRecord)
    (hrec : ∀ r ∈ records, ∀ mv iso, validShowing r = some (mv, iso) → Q iso) :
    ∀ kv ∈ buildShowtimeMap records, ∀ x ∈ kv.2, Q x :=
  buildShowtimeMap_values records [] (by simp) hrec

/-! ## Claims about the Normalizer -/

/-- C5 counterexample: the `monitor.js` normalization stores locale-formatted
display strings and sorts them with the default lexicographic `sort()`.  On
a December 2025 showing followed by an April 2026 showing of the same title,
the produced sequence lists the April instant (time value `1775656800000`)
before the December instant (time value `1766513400000`): the sequence is
ordered by the formatted strings, not chronologically by the instants' time
values. -/
theorem formatted_sort_not_chronological :
    normalizeMonitor fmtEx recsMonitor = [("Movie A", [fmtApr, fmtDec])] ∧
      fmtEx isoApr = fmtApr ∧ fmtEx isoDec = fmtDec ∧
      pIso isoDec = some 1766513400000 ∧ pIso isoApr = some 1775656800000 ∧
      tvFmt fmtApr = 1775656800000 ∧ tvFmt fmtDec = 1766513400000 ∧
      ¬ List.Pairwise (fun a b => tvFmt a ≤ tvFmt b) [fmtApr, fmtDec] := by
  decide

/-- C5 (amended): in the rolling-window normalization
(`getAllShowtimesRollingMonth`), every title's instant sequence is
duplicate-free and sorted chronologically ascending by the instants' parsed
time values, provided every record's instant parses to a finite value (for
an unparseable instant the comparator returns `NaN` and the engine's order
is unspecified).  The `monitor.js` variant instead sorts locale-formatted
strings lexicographically, which need not be chronological. -/
theorem normalized_sorted_dedup (p : ParseFn) (records : List ShowingRecord)
    (hp : ∀ r ∈ records, ∀ iso, r.time = some iso → (p iso).isSome = true)
    (t : String) (ts : List String)
    (hmem : (t, ts) ∈ getAllShowtimesMap p records) :
    ts.Nodup ∧ ts.Pairwise (timeLe p) ∧ ∀ x ∈ ts, (p x).isSome = true := by
  rw [getAllShowtimesMap, List.mem_map] at hmem
  obtain ⟨kv0, hmem0, heq⟩ := hmem
  injection heq with h1 h2
  subst h1
  subst h2
  refine ⟨?_, ?_, ?_⟩
  · exact (List.perm_insertionSort (timeLe p) (setDedup kv0.2)).nodup_iff.mpr
      (setDedup_nodup kv0.2)
  · exact List.sorted_insertionSort (timeLe p) (setDedup kv0.2)
  · intro x hx
    have hx0 : x ∈ kv0.2 :=
      setDedup_subset ((List.mem_insertionSort (timeLe p)).mp hx)
    exact buildShowtimeMap_forall records
      (fun r hr mv iso hv => hp r hr iso (validShowing_time hv))
      kv0 hmem0 x hx0

/-- C5 witness: concrete records (a title needing trimming, a duplicated
instant, instants of distinct parsed values) normalize to a duplicate-free
sequence sorted by parsed time value. -/
theorem normalized_sorted_dedup_witness :
    (∀ r ∈ recsNorm, ∀ iso, r.time = some iso →
        (pEval iso).isSome = true) ∧
      ("Movie A", ["a", "abc"]) ∈ getAllShowtimesMap pEval recsNorm ∧
      (["a", "abc"].Nodup ∧ List.Pairwise (timeLe pEval) ["a", "abc"] ∧
        ∀ x ∈ ["a", "abc"], (pEval x).isSome = true) :=
  have hp : ∀ r ∈ recsNorm, ∀ iso, r.time = some iso →
      (pEval iso).isSome = true := by
    intro r hr iso hiso
    simp only [recsNorm, List.mem_cons, List.not_mem_nil, or_false] at hr
    rcases hr with rfl | rfl | rfl <;>
      (injection hiso with h; subst h; decide)
  ⟨hp, by decide,
    normalized_sorted_dedup pEval recsNorm hp "Movie A" ["a", "abc"]
      (by decide)⟩

/-! ## Window Fetcher lemmas -/

theorem fetchLoopGo_all_ok (ymds : Nat → String)
    (responses : Nat → HttpResponse) :
    ∀ ds : List Nat, (∀ i ∈ ds, dayOk ymds responses i = true) →
      fetchLoopGo ymds responses ds =
        (ds, .ok ((ds.map (dayShowings ymds responses)).flatten)) := by
  intro ds
  induction ds with
  | nil => intro _; rfl
  | cons i rest ih =>
    intro h
    rw [fetchLoopGo]
    have hok := h i (List.mem_cons_self _ _)
    rw [dayOk] at hok
    cases hc : fetchShowingsForDate (ymds i) (responses i) with
    | error e => rw [hc] at hok; cases hok
    | ok recs =>
      dsimp only
      rw [ih (fun j hj => h j (List.mem_cons_of_mem _ hj))]
      simp [dayShowings, hc, Except.map]

theorem fetchLoopGo_first_error (ymds : Nat → String)
    (responses : Nat → HttpResponse) (j : Nat) (e : FetchError)
    (hj : fetchShowingsForDate (ymds j) (responses j) = .error e) :
    ∀ ds1 : List Nat, ∀ ds2 : List Nat,
      (∀ i ∈ ds1, dayOk ymds responses i = true) →
      fetchLoopGo ymds responses (ds1 ++ j :: ds2) = (ds1 ++ [j], .error e) := by
  intro ds1
  induction ds1 with
  | nil =>
    intro ds2 _
    rw [List.nil_append, fetchLoopGo, hj]
    simp
  | cons i rest ih =>
    intro ds2 h
    rw [List.cons_append, fetchLoopGo]
    have hok := h i (List.mem_cons_self _ _)
    rw [dayOk] at hok
    cases hc : fetchShowingsForDate (ymds i) (responses i) with
    | error e2 => rw [hc] at hok; cases hok
    | ok recs =>
      dsimp only
      rw [ih ds2 (fun x hx => h x (List.mem_cons_of_mem _ hx))]
      simp [Except.map]

theorem fetchLoopGo_ok_all (ymds : Nat → String)
    (responses : Nat → HttpResponse) :
    ∀ (ds : List Nat) (q : List Nat) (l : List ShowingRecord),
      fetchLoopGo ymds responses ds = (q, .ok l) →
      ∀ i ∈ ds, dayOk ymds responses i = true := by
  intro ds
  induction ds with
  | nil => intro q l _ i hi; cases hi
  | cons i0 rest ih =>
    intro q l h i hi
    rw [fetchLoopGo] at h
    cases hc : fetchShowingsForDate (ymds i0) (responses i0) with
    | error e =>
      rw [hc] at h
      dsimp only at h
      injection h with h1 h2
      cases h2
    | ok recs =>
      rw [hc] at h
      dsimp only at h
      rcases List.mem_cons.mp hi with rfl | hmem
      · rw [dayOk, hc]
      · have h2 : ((fetchLoopGo ymds responses rest).2).map
            (fun more => recs ++ more) = .ok l := congrArg Prod.snd h
        cases hr : (fetchLoopGo ymds responses rest).2 with
        | error e2 => rw [hr] at h2; simp [Except.map] at h2
        | ok l2 =>
          exact ih (fetchLoopGo ymds responses rest).1 l2 (by rw [← hr]) i hmem

/-! ## Claims about the Window Fetcher -/

/-- C6: the Window Fetcher is all-or-nothing over the 31 consecutive dates
(day indices `0` through `DAYS_AHEAD = 30`).  (1) if every day classifies as
a success, the window returns the concatenation of all days' records (and
every day was queried); (2) if day `j` is the first failing day — forbidden
status, other non-success status or error-indicating payload — the whole
fetch aborts with exactly that day's distinguishable error and no date after
`j` is queried; (3) conversely an `ok` result is only produced when every
one of the 31 days succeeded. -/
theorem window_fetch_all_or_nothing (ymds : Nat → String)
    (responses : Nat → HttpResponse) :
    ((∀ i, i ≤ DAYS_AHEAD → dayOk ymds responses i = true) →
      fetchWindow ymds responses =
        (List.range (DAYS_AHEAD + 1),
          .ok (((List.range (DAYS_AHEAD + 1)).map
            (dayShowings ymds responses)).flatten))) ∧
    (∀ j, j ≤ DAYS_AHEAD → dayOk ymds responses j = false →
      (∀ i, i < j → dayOk ymds responses i = true) →
      ∃ e, fetchShowingsForDate (ymds j) (responses j) = .error e ∧
        fetchWindow ymds responses = (List.range (j + 1), .error e) ∧
        ∀ k ∈ (fetchWindow ymds responses).1, k ≤ j) ∧
    (∀ q l, fetchWindow ymds responses = (q, .ok l) →
      ∀ i, i ≤ DAYS_AHEAD → dayOk ymds responses i = true) := by
  refine ⟨?_, ?_, ?_⟩
  · intro h
    exact fetchLoopGo_all_ok ymds responses _
      (fun i hi => h i (Nat.lt_succ_iff.mp (List.mem_range.mp hi)))
  · intro j hj hbad hgood
    have he : ∃ e, fetchShowingsForDate (ymds j) (responses j) = .error e := by
      rw [dayOk] at hbad
      cases hc : fetchShowingsForDate (ymds j) (responses j) with
      | error e => exact ⟨e, rfl⟩
      | ok recs => rw [hc] at hbad; cases hbad
    obtain ⟨e, he⟩ := he
    have hsplit : ∃ ds2, List.range (DAYS_AHEAD + 1) =
        List.range j ++ j :: ds2 := by
      obtain ⟨k, hk⟩ := Nat.exists_eq_add_of_lt (Nat.lt_succ_of_le hj)
      refine ⟨((List.range k).map Nat.succ).map (fun x => j + x), ?_⟩
      rw [show DAYS_AHEAD + 1 = j + (k + 1) from hk, List.range_add,
        List.range_succ_eq_map]
      simp
    obtain ⟨ds2, hds2⟩ := hsplit
    have hrun : fetchWindow ymds responses = (List.range j ++ [j], .error e) := by
      rw [fetchWindow, hds2]
      exact fetchLoopGo_first_error ymds responses j e he (List.range j) ds2
        (fun i hi => hgood i (List.mem_range.mp hi))
    rw [← List.range_succ] at hrun
    refine ⟨e, he, hrun, ?_⟩
    intro k hk
    rw [hrun] at hk
    exact Nat.lt_succ_iff.mp (List.mem_range.mp hk)
  · intro q l h i hi
    exact fetchLoopGo_ok_all ymds responses _ q l h i
      (List.mem_range.mpr (Nat.lt_succ_of_le hi))

/-- C6 witness: an all-success window returns the concatenation of all 31
days and queries them all; a window whose day 2 is forbidden aborts with the
forbidden error, queries only days 0, 1, 2, and no later day. -/
theorem window_fetch_all_or_nothing_witness :
    ((∀ i, i ≤ DAYS_AHEAD → dayOk ymdsEx responsesAllOk i = true) ∧
      fetchWindow ymdsEx responsesAllOk =
        (List.range (DAYS_AHEAD + 1),
          .ok (((List.range (DAYS_AHEAD + 1)).map
            (dayShowings ymdsEx responsesAllOk)).flatten))) ∧
    ((2 : Nat) ≤ DAYS_AHEAD ∧ dayOk ymdsEx responsesErrAt2 2 = false ∧
      (∀ i, i < 2 → dayOk ymdsEx responsesErrAt2 i = true) ∧
      ∃ e, fetchShowingsForDate (ymdsEx 2) (responsesErrAt2 2) = .error e ∧
        fetchWindow ymdsEx responsesErrAt2 = (List.range 3, .error e) ∧
        ∀ k ∈ (fetchWindow ymdsEx responsesErrAt2).1, k ≤ 2) :=
  ⟨⟨by decide, (window_fetch_all_or_nothing ymdsEx responsesAllOk).1
      (by decide)⟩,
    by decide, by decide, by decide,
    (window_fetch_all_or_nothing ymdsEx responsesErrAt2).2.1 2 (by decide)
      (by decide) (by decide)⟩

/-! ## Claims about the top-level run -/

/-- C1 counterexample: in the `monitor.js` variant of `main`, a forbidden
fetch error on a run whose cache holds one title is caught and the run
continues: the process exits `0` (reports success), the Snapshot Store is
overwritten with the empty schedule, and a notification is sent (the cached
title appears as removed).  This contradicts the claim's required outcome
(non-zero exit, untouched store, no notification). -/
theorem monitor_fetch_error_mutates_and_notifies :
    mainMonitor (some oldCacheEx) (.error (.forbidden "2026-01-05"))
      (some "https://example.org/hook") true =
      { exitCode := 0, savedCache := some [], notificationSent := true } := by
  decide

/-- C1 (amended): in the rolling-window variant, whenever the fetch stage
throws — bootstrap failure, forbidden status, other non-success status or
error-indicating payload — the run exits `1`, the Snapshot Store is left
untouched and no notification is sent.  (The `monitor.js` variant instead
catches the fetch error and proceeds with an empty schedule.) -/
theorem fetch_error_aborts_run (bootstrap : Except FetchError String)
    (ymds : Nat → String) (responses : Nat → HttpResponse) (p : ParseFn)
    (now : Int) (oldCache : Option Schedule) (webhookUrl : Option String)
    (transportOk : Bool) (e : FetchError)
    (h : getAllShowtimesRollingMonth bootstrap ymds responses p = .error e) :
    mainRollingMonth oldCache
      (getAllShowtimesRollingMonth bootstrap ymds responses p) p now
      webhookUrl transportOk =
      { exitCode := 1, savedCache := none, notificationSent := false } := by
  rw [h]
  rfl

/-- C1 witness: with a forbidden response on day 0 the whole fetch throws the
forbidden error, and the run reports failure with the store untouched and no
notification. -/
theorem fetch_error_aborts_run_witness :
    getAllShowtimesRollingMonth (.ok "") ymdsEx responsesForbidden pEval =
      .error (.forbidden "0") ∧
    mainRollingMonth none
      (getAllShowtimesRollingMonth (.ok "") ymdsEx responsesForbidden pEval)
      pEval 0 (some "https://example.org/hook") true =
      { exitCode := 1, savedCache := none, notificationSent := false } :=
  ⟨rfl, fetch_error_aborts_run (.ok "") ymdsEx responsesForbidden pEval 0 none
    (some "https://example.org/hook") true (.forbidden "0") rfl⟩

/-! ## Claims about the Notifier -/

/-- C7 counterexample: the oldest GraphQL variant's notifier, given no
webhook URL, completes without an error and without sending (it logs and
returns), contradicting the claim that an absent URL always surfaces as an
error. -/
theorem v1_missing_url_silent : sendNotificationV1 none true = .ok false := rfl

/-- C7 (amended): in the rolling-window and `monitor.js` variants a missing
webhook URL makes `sendNotification` fail with the missing-configuration
error before any POST, never completing silently; the oldest variant instead
logs and returns. -/
theorem missing_url_throws (transportOk : Bool) :
    sendNotification none transportOk = .error .missingWebhookUrl := rfl

/-! ## Session Primer lemmas -/

theorem lookup_mapSet_self (k v : String) :
    ∀ m : List (String × String), (mapSet m k v).lookup k = some v := by
  intro m
  induction m with
  | nil => simp [mapSet, List.lookup_cons]
  | cons kv rest ih =>
    rw [mapSet]
    split
    · rw [List.lookup_cons]
      simp
    · rw [List.lookup_cons]
      next hne =>
      have hb : (k == kv.1) = false := by
        rw [beq_eq_false_iff_ne]
        exact fun hk => hne hk.symm
      simp [hb, ih]

theorem lookup_mapSet_ne {k k2 v : String} (hne : k2 ≠ k) :
    ∀ m : List (String × String), (mapSet m k2 v).lookup k = m.lookup k := by
  intro m
  have hb : (k == k2) = false := by
    rw [beq_eq_false_iff_ne]
    exact fun hk => hne hk.symm
  induction m with
  | nil => simp [mapSet, List.lookup_cons, hb]
  | cons kv rest ih =>
    rw [mapSet]
    split
    · next heq =>
      rw [List.lookup_cons, List.lookup_cons]
      subst heq
      simp [hb]
    · rw [List.lookup_cons, List.lookup_cons]
      cases hk : k == kv.1 with
      | true => simp
      | false => simp [ih]

theorem applySetCookies_lookup (k : String) :
    ∀ (arr : List String) (m : List (String × String)),
      (applySetCookies m arr).lookup k =
        match lastValueForKey arr k with
        | some v => some v
        | none => m.lookup k := by
  intro arr
  induction arr with
  | nil => intro m; rfl
  | cons c rest ih =>
    intro m
    rw [applySetCookies, ih, lastValueForKey]
    cases hl : lastValueForKey rest k with
    | some v => rfl
    | none =>
      dsimp only
      cases hp : parseCookiePair (firstPiece c) with
      | none => rfl
      | some kv =>
        dsimp only
        by_cases hkk : kv.1 = k
        · subst hkk
          rw [if_pos rfl, lookup_mapSet_self]
        · rw [if_neg hkk, lookup_mapSet_ne hkk]

/-! ## Claims about the Session Primer -/

/-- C8: the Session Primer returns a merged cookie header for every pair of
transport-completed bootstrap responses.  (1) It is exactly the merge of the
`set-cookie` arrays of both responses in order; (2) the response status
codes are never consulted, so non-2xx responses contribute their cookies
like any other (no short-circuit on status); (3) within the merge, entries
are keyed and later values overwrite earlier ones for the same key: the
looked-up value of `k` after applying the `set-cookie` entries is the last
entry parsing to key `k`, or the pre-existing value when no entry has that
key. -/
theorem primer_accumulates_regardless_of_status (r1 r2 : BootResponse)
    (s1 s2 : Nat) (m : List (String × String)) (arr : List String)
    (k : String) :
    primeCookies r1 r2 =
      mergeSetCookies (mergeSetCookies "" r1.setCookie) r2.setCookie ∧
    primeCookies ⟨s1, r1.setCookie⟩ ⟨s2, r2.setCookie⟩ = primeCookies r1 r2 ∧
    (applySetCookies m arr).lookup k =
      (match lastValueForKey arr k with
       | some v => some v
       | none => m.lookup k) :=
  ⟨rfl, rfl, applySetCookies_lookup k arr m⟩

end Thornbury
